import Mathlib

/-!
Verification of the zerobrew installer engine against its specification.

The development shallowly embeds the Rust sources:
  * `zb_core/src/formula.rs` and `zb_core/src/bottle.rs` (formula model,
    bottle selection),
  * `zb_io/src/materialize.rs` (cellar materialization and
    `find_bottle_content`),
  * `zb_io/src/link.rs` (the symlink linker),
  * `zb_io/src/install.rs` (the installer orchestrator).

Paths are modelled as lists of components.  Filesystem directories touched
by the linker are modelled as maps from entry basename to an `EntryState`;
symlink resolution (`fs::canonicalize`) is modelled by recording, for each
symlink, the canonical path its target resolves to (`none` when dangling).
-/

namespace Zerobrew

/-- One entry of `bottle.stable.files` (url and sha256), from
`zb_core/src/formula.rs`. -/
structure BottleFile where
  url : String
  sha256 : String
deriving DecidableEq

/-- The `versions` field of a formula (`versions.stable`). -/
structure Versions where
  stable : String
deriving DecidableEq

/-- The `bottle.stable` object: a tag-keyed map of bottle files.  The Rust
side is a `BTreeMap<String, BottleFile>`; we model it as the association
list in the map's (sorted) iteration order. -/
structure BottleStable where
  files : List (String × BottleFile)
deriving DecidableEq

/-- The `bottle` field of a formula. -/
structure Bottle where
  stable : BottleStable
deriving DecidableEq

/-- A formula record, from `zb_core/src/formula.rs`. -/
structure Formula where
  name : String
  versions : Versions
  dependencies : List String
  bottle : Bottle
deriving DecidableEq

/-- A selected bottle `(tag, url, sha256)`, from `zb_core/src/bottle.rs`. -/
structure SelectedBottle where
  tag : String
  url : String
  sha256 : String
deriving DecidableEq

/-- The error taxonomy used by the embedded functions (`zb_core::Error`). -/
inductive Error where
  | UnsupportedBottle (name : String)
  | LinkConflict (path : List String)
  | StoreCorruption (message : String)
  | NotInstalled (name : String)
  | MissingFormula (name : String)
deriving DecidableEq

/-- The `tag.starts_with("arm64_")` test, computed on the character lists
of the strings so that concrete instances evaluate. -/
def strStartsWith (s t : String) : Bool :=
  s.data.take t.data.length == t.data

/-- The loop body of `select_bottle`: scan the tag-keyed file list and
return the first entry whose tag starts with `"arm64_"`
(`zb_core/src/bottle.rs` lines 11-19). -/
def selectFromFiles (name : String) : List (String × BottleFile) → Except Error SelectedBottle
  | [] => .error (.UnsupportedBottle name)
  | (tag, file) :: rest =>
    if strStartsWith tag "arm64_" then
      .ok ⟨tag, file.url, file.sha256⟩
    else
      selectFromFiles name rest

/-- `select_bottle` from `zb_core/src/bottle.rs` lines 10-24. -/
def select_bottle (f : Formula) : Except Error SelectedBottle :=
  selectFromFiles f.name f.bottle.stable.files

/-- Claim-side restatement of bottle selection, written from the spec's
words: the `(tag, url, sha256)` of the first entry of `bottle.stable.files`
whose tag begins with `"arm64_"`, else `UnsupportedBottle` carrying the
formula's name. -/
def selectBottleSpec (f : Formula) : Except Error SelectedBottle :=
  match f.bottle.stable.files.find? (fun p => strStartsWith p.fst "arm64_") with
  | some (tag, file) => .ok ⟨tag, file.url, file.sha256⟩
  | none => .error (.UnsupportedBottle f.name)

theorem selectFromFiles_eq_find (name : String) (files : List (String × BottleFile)) :
    selectFromFiles name files =
      match files.find? (fun p => strStartsWith p.fst "arm64_") with
      | some (tag, file) => .ok ⟨tag, file.url, file.sha256⟩
      | none => .error (.UnsupportedBottle name) := by
  induction files with
  | nil => rfl
  | cons hd tl ih =>
    obtain ⟨tag, file⟩ := hd
    by_cases h : strStartsWith tag "arm64_" = true
    · simp [selectFromFiles, List.find?, h]
    · simp only [Bool.not_eq_true] at h
      simp [selectFromFiles, List.find?, h, ih]

/-- Claim C5: for every formula, `select_bottle` returns the
`(tag, url, sha256)` of the first entry of `bottle.stable.files` whose tag
begins with `"arm64_"`, and returns `UnsupportedBottle` carrying the
formula's name when no entry matches. -/
theorem C5_select_bottle_first_arm64 (f : Formula) :
    select_bottle f = selectBottleSpec f := by
  unfold select_bottle selectBottleSpec
  exact selectFromFiles_eq_find f.name f.bottle.stable.files

/-! ### Filesystem trees (store entries) -/

/-- A filesystem subtree: a regular file or a directory with named
children.  Used to model the content of a store entry. -/
inductive FsNode where
  | file : FsNode
  | dir : List (String × FsNode) → FsNode

/-- Look up a direct child by name. -/
def FsNode.child : FsNode → String → Option FsNode
  | .file, _ => none
  | .dir cs, n => (cs.find? (fun c => c.fst == n)).map (fun c => c.snd)

/-- Whether a node is a directory. -/
def FsNode.isDirNode : FsNode → Bool
  | .file => false
  | .dir _ => true

/-- Whether `node.child n` exists and is a directory (the Rust
`path.exists() && path.is_dir()` on a child path). -/
def FsNode.childIsDir (node : FsNode) (n : String) : Bool :=
  match node.child n with
  | some c => c.isDirNode
  | none => false

/-- The sole subdirectory of a child list, when the subdirectories number
exactly one (the `dirs.len() == 1` check of `find_bottle_content`). -/
def soleSubdir (cs : List (String × FsNode)) : Option (String × FsNode) :=
  match cs.filter (fun c => c.snd.isDirNode) with
  | [d] => some d
  | _ => none

/-- `find_bottle_content` from `zb_io/src/materialize.rs` lines 97-122:
given the store entry's path and tree and the formula's name and version,
return the path of the content root to copy. -/
def find_bottle_content (entryPath : List String) (entry : FsNode) (name version : String) :
    List String :=
  match entry.child name with
  | some nnode =>
    if nnode.childIsDir version then
      entryPath ++ [name, version]
    else
      match nnode with
      | .dir cs =>
        match soleSubdir cs with
        | some d => entryPath ++ [name, d.fst]
        | none => entryPath ++ [name]
      | .file => entryPath
  | none => entryPath

/-- Claim-side restatement of content-root location, written from the
spec's words: try `<name>/<version>`; else, when `<name>/` is a directory
holding exactly one subdirectory, that sole subdirectory; else `<name>/`
itself; else the store entry root. -/
def findBottleContentSpec (entryPath : List String) (entry : FsNode) (name version : String) :
    List String :=
  if (entry.child name).any (fun n => n.childIsDir version) then
    entryPath ++ [name, version]
  else if (entry.child name).any (fun n => n.isDirNode) then
    match (entry.child name).bind (fun n =>
        match n with
        | .dir cs => soleSubdir cs
        | .file => none) with
    | some d => entryPath ++ [name, d.fst]
    | none => entryPath ++ [name]
  else
    entryPath

/-- Claim C6: `materialize` locates the content root by trying, in order,
`<name>/<version>` inside the store entry; else the sole subdirectory of
`<name>/` when there is exactly one; else `<name>/` itself; else the store
entry root. -/
theorem C6_find_bottle_content_order (entryPath : List String) (entry : FsNode)
    (name version : String) :
    find_bottle_content entryPath entry name version =
      findBottleContentSpec entryPath entry name version := by
  unfold find_bottle_content findBottleContentSpec
  cases hc : entry.child name with
  | none => simp
  | some nnode =>
    cases nnode with
    | file => simp [FsNode.childIsDir, FsNode.child, FsNode.isDirNode]
    | dir cs =>
      by_cases hv : FsNode.childIsDir (.dir cs) version = true
      · simp [hv]
      · simp only [Bool.not_eq_true] at hv
        have hdir : FsNode.isDirNode (FsNode.dir cs) = true := rfl
        simp only [hv, hdir, Option.any_some, Option.bind_some, Bool.false_eq_true,
          if_false, if_true]
        cases hs : soleSubdir cs with
        | none => simp [hs]
        | some d => simp [hs]

/-! ### Cellar / materializer -/

/-- The cellar's materialized kegs: `(name, version)` keys paired with the
copied content. -/
structure CellarState where
  kegs : List ((String × String) × FsNode)

/-- `Cellar::keg_path` (`zb_io/src/materialize.rs` lines 28-30). -/
def keg_path (cellarDir : List String) (name version : String) : List String :=
  cellarDir ++ [name, version]

/-- `Cellar::has_keg`: whether the keg directory exists
(`zb_io/src/materialize.rs` lines 32-34). -/
def has_keg (s : CellarState) (name version : String) : Bool :=
  (s.kegs.find? (fun k => k.fst.fst == name && k.fst.snd == version)).isSome

/-- Look up a node by a relative component path. -/
def FsNode.lookup : FsNode → List String → Option FsNode
  | n, [] => some n
  | n, c :: rest => (n.child c).bind (fun m => FsNode.lookup m rest)

/-- `Cellar::materialize` from `zb_io/src/materialize.rs` lines 36-71: if
the keg path exists, return it unchanged; otherwise locate the content
root with `find_bottle_content` and copy it to the keg path. -/
def materialize (cellarDir : List String) (name version : String)
    (entryPath : List String) (entry : FsNode) (s : CellarState) :
    List String × CellarState :=
  let kp := keg_path cellarDir name version
  if has_keg s name version then
    (kp, s)
  else
    let src := find_bottle_content entryPath entry name version
    let content := (entry.lookup (src.drop entryPath.length)).getD entry
    (kp, ⟨((name, version), content) :: s.kegs⟩)

/-- Claim C7: if the keg directory already exists, `materialize` returns
that path and performs no copy (the state is unchanged); consequently a
second `materialize` call is a no-op returning the same path as the
first. -/
theorem C7_materialize_idempotent (cellarDir : List String) (name version : String)
    (entryPath : List String) (entry : FsNode) (s : CellarState) :
    (has_keg s name version = true →
      materialize cellarDir name version entryPath entry s =
        (keg_path cellarDir name version, s)) ∧
    materialize cellarDir name version entryPath entry
        (materialize cellarDir name version entryPath entry s).snd =
      materialize cellarDir name version entryPath entry s := by
  constructor
  · intro h
    simp [materialize, h]
  · by_cases h : has_keg s name version = true
    · simp [materialize, h]
    · simp only [Bool.not_eq_true] at h
      have h2 : has_keg
          ⟨((name, version),
            (entry.lookup ((find_bottle_content entryPath entry name version).drop
              entryPath.length)).getD entry) :: s.kegs⟩ name version = true := by
        simp [has_keg, List.find?]
      simp [materialize, h, h2]

/-- Witness for claim C7 at a concrete input. -/
theorem C7_materialize_idempotent_witness :
    has_keg ⟨[(("foo", "1.0.0"), FsNode.file)]⟩ "foo" "1.0.0" = true ∧
    materialize ["cellar"] "foo" "1.0.0" ["store", "k"] FsNode.file
        ⟨[(("foo", "1.0.0"), FsNode.file)]⟩ =
      (keg_path ["cellar"] "foo" "1.0.0", ⟨[(("foo", "1.0.0"), FsNode.file)]⟩) :=
  ⟨by decide,
    (C7_materialize_idempotent ["cellar"] "foo" "1.0.0" ["store", "k"] FsNode.file
      ⟨[(("foo", "1.0.0"), FsNode.file)]⟩).1 (by decide)⟩

/-! ### Linker

The prefix `bin` and `opt` directories are modelled as maps from entry
basename to an `EntryState`.  `fs::canonicalize` of a symlink's resolved
target is modelled by the `canon` field recorded with the symlink
(`none` when the target does not resolve, i.e. the symlink dangles). -/

/-- What currently sits at a directory entry of the prefix. -/
inductive EntryState where
  | absent
  | realFile
  | realDir
  | symlink (canon : Option (List String))
deriving DecidableEq

/-- Update one entry of a directory map. -/
def setEntry (m : String → EntryState) (n : String) (v : EntryState) :
    String → EntryState :=
  fun x => if x = n then v else m x

/-- One entry of the keg's `bin` directory: its basename and the canonical
path `fs::canonicalize(target_path)` resolves to (`none` if it fails). -/
structure KegEntry where
  name : String
  canon : Option (List String)
deriving DecidableEq

/-- A created link, from `zb_io/src/link.rs` lines 12-16. -/
structure LinkedFile where
  link_path : List String
  target_path : List String
deriving DecidableEq

/-- The comparison `existing_canonical.is_some() && existing_canonical ==
target_canonical` used throughout `zb_io/src/link.rs`. -/
def canonEq (c t : Option (List String)) : Bool :=
  c.isSome && decide (c = t)

/-- The body of the `link_keg` loop for one entry of the keg's bin
directory (`zb_io/src/link.rs` lines 49-108): create the symlink when the
slot is free, keep a symlink that already resolves to our target, replace
a dangling symlink, and fail with `LinkConflict` on a real file or a
symlink resolving elsewhere. -/
def processEntry (binDir kegBin : List String) (e : KegEntry)
    (bin : String → EntryState) (linked : List LinkedFile) :
    Except Error ((String → EntryState) × List LinkedFile) :=
  let lp := binDir ++ [e.name]
  let tp := kegBin ++ [e.name]
  match bin e.name with
  | .absent => .ok (setEntry bin e.name (.symlink e.canon), linked ++ [⟨lp, tp⟩])
  | .realFile => .error (.LinkConflict lp)
  | .realDir => .error (.LinkConflict lp)
  | .symlink c =>
    if canonEq c e.canon then
      .ok (bin, linked ++ [⟨lp, tp⟩])
    else if c.isNone then
      .ok (setEntry bin e.name (.symlink e.canon), linked ++ [⟨lp, tp⟩])
    else
      .error (.LinkConflict lp)

/-- The `link_keg` loop over the keg's bin entries, threading the bin
directory state; on a conflict the loop stops and the state reached so far
is returned together with the error (`zb_io/src/link.rs` lines 42-109). -/
def linkRun (binDir kegBin : List String) :
    List KegEntry → (String → EntryState) → List LinkedFile →
    (String → EntryState) × Except Error (List LinkedFile)
  | [], bin, linked => (bin, .ok linked)
  | e :: rest, bin, linked =>
    match processEntry binDir kegBin e bin linked with
    | .ok (bin2, linked2) => linkRun binDir kegBin rest bin2 linked2
    | .error err => (bin, .error err)

/-- Formula name extraction from a keg path
(`keg_path.parent().file_name()`, `zb_io/src/link.rs` lines 193-199). -/
def nameOfKeg (kegPath : List String) : Option String :=
  kegPath.dropLast.getLast?

/-- `Linker::link_opt` from `zb_io/src/link.rs` lines 191-231: keep an opt
symlink already pointing at this keg; otherwise remove whatever sits there
(failing on a directory) and create a symlink to the keg.  Returns the new
opt map and `none` on success. -/
def link_opt (kegPath : List String) (kegCanon : Option (List String))
    (opt : String → EntryState) : (String → EntryState) × Option Error :=
  match nameOfKeg kegPath with
  | none => (opt, some (.StoreCorruption "could not determine formula name from keg path"))
  | some name =>
    match opt name with
    | .absent => (setEntry opt name (.symlink kegCanon), none)
    | .realFile => (setEntry opt name (.symlink kegCanon), none)
    | .realDir => (opt, some (.StoreCorruption "failed to remove old opt symlink"))
    | .symlink c =>
      if canonEq c kegCanon then (opt, none)
      else (setEntry opt name (.symlink kegCanon), none)

/-- The linker's view of the prefix: the `opt` and `bin` directories. -/
structure LinkerState where
  opt : String → EntryState
  bin : String → EntryState

/-- `Linker::link_keg` from `zb_io/src/link.rs` lines 30-112: create the
opt symlink, then link every entry of the keg's bin directory
(`kegBinHasDir` is `keg_bin.exists()`; `entries` are the directory's
entries; `kegCanon` is `fs::canonicalize(keg_path)`). -/
def link_keg (binDir kegPath : List String) (kegCanon : Option (List String))
    (kegBinHasDir : Bool) (entries : List KegEntry) (s : LinkerState) :
    LinkerState × Except Error (List LinkedFile) :=
  match link_opt kegPath kegCanon s.opt with
  | (_, some err) => (s, .error err)
  | (opt2, none) =>
    if kegBinHasDir then
      let r := linkRun binDir (kegPath ++ ["bin"]) entries s.bin []
      (⟨opt2, r.fst⟩, r.snd)
    else
      (⟨opt2, s.bin⟩, .ok [])

/-- The removal condition of `unlink_keg` and `unlink_opt`: the slot holds
a symlink whose canonical resolution matches the keg target's
(`zb_io/src/link.rs` lines 139-151). -/
def canonMatchB (st : EntryState) (canon : Option (List String)) : Bool :=
  match st with
  | .symlink c => canonEq c canon
  | _ => false

/-- `Linker::unlink_opt` from `zb_io/src/link.rs` lines 164-188: remove
the opt symlink when it points at this keg. -/
def unlink_opt (kegPath : List String) (kegCanon : Option (List String))
    (opt : String → EntryState) : String → EntryState :=
  match nameOfKeg kegPath with
  | none => opt
  | some name =>
    if canonMatchB (opt name) kegCanon then setEntry opt name .absent else opt

/-- The `unlink_keg` loop over the keg's bin entries
(`zb_io/src/link.rs` lines 127-158): remove `prefix/bin/<basename>` only
when it is a symlink resolving to this keg's entry. -/
def unlinkRun (binDir : List String) :
    List KegEntry → (String → EntryState) → List (List String) →
    (String → EntryState) × List (List String)
  | [], bin, acc => (bin, acc)
  | e :: rest, bin, acc =>
    if canonMatchB (bin e.name) e.canon then
      unlinkRun binDir rest (setEntry bin e.name .absent) (acc ++ [binDir ++ [e.name]])
    else
      unlinkRun binDir rest bin acc

/-- `Linker::unlink_keg` from `zb_io/src/link.rs` lines 115-161. -/
def unlink_keg (binDir kegPath : List String) (kegCanon : Option (List String))
    (kegBinHasDir : Bool) (entries : List KegEntry) (s : LinkerState) :
    LinkerState × List (List String) :=
  let opt2 := unlink_opt kegPath kegCanon s.opt
  if kegBinHasDir then
    let r := unlinkRun binDir entries s.bin []
    (⟨opt2, r.fst⟩, r.snd)
  else
    (⟨opt2, s.bin⟩, [])

/-- Whether the components `d` are an initial segment of the components
`p` (a path lying within a directory). -/
def liesWithin (d p : List String) : Bool :=
  decide (p.take d.length = d)

/-- Claim C9: in `link_keg`, a dangling existing symlink at a candidate
link path is removed and a fresh symlink to the keg's binary is created in
its place; the case is not reported as a `LinkConflict`. -/
theorem C9_dangling_symlink_replaced (binDir kegBin : List String) (e : KegEntry)
    (bin : String → EntryState) (linked : List LinkedFile)
    (h : bin e.name = .symlink none) :
    processEntry binDir kegBin e bin linked =
      .ok (setEntry bin e.name (.symlink e.canon),
        linked ++ [⟨binDir ++ [e.name], kegBin ++ [e.name]⟩]) := by
  simp [processEntry, h, canonEq]

/-- Witness for claim C9 at a concrete input. -/
theorem C9_dangling_symlink_replaced_witness :
    (fun n => if n = "foo" then EntryState.symlink none else .absent) "foo" =
      EntryState.symlink none ∧
    processEntry ["p", "bin"] ["c", "foo", "1", "bin"]
        ⟨"foo", some ["c", "foo", "1", "bin", "foo"]⟩
        (fun n => if n = "foo" then EntryState.symlink none else .absent) [] =
      .ok (setEntry (fun n => if n = "foo" then EntryState.symlink none else .absent)
          "foo" (.symlink (some ["c", "foo", "1", "bin", "foo"])),
        [⟨["p", "bin", "foo"], ["c", "foo", "1", "bin", "foo"]⟩]) :=
  ⟨by decide,
    C9_dangling_symlink_replaced ["p", "bin"] ["c", "foo", "1", "bin"]
      ⟨"foo", some ["c", "foo", "1", "bin", "foo"]⟩
      (fun n => if n = "foo" then EntryState.symlink none else .absent) [] (by decide)⟩

/-- Claim C10: for a keg whose bin subdirectory does not exist, `link_keg`
succeeds with the empty list of linked files, touches nothing under
`prefix/bin`, and changes at most the `prefix/opt/<name>` entry. -/
theorem C10_keg_without_bin_links_empty (binDir kegPath : List String)
    (kegCanon : Option (List String)) (entries : List KegEntry) (s : LinkerState)
    (name : String) (h1 : nameOfKeg kegPath = some name)
    (h2 : s.opt name ≠ .realDir) :
    ∃ opt2,
      link_keg binDir kegPath kegCanon false entries s = (⟨opt2, s.bin⟩, .ok []) ∧
      ∀ n, n ≠ name → opt2 n = s.opt n := by
  cases ho : s.opt name with
  | absent =>
    refine ⟨setEntry s.opt name (.symlink kegCanon), ?_, ?_⟩
    · simp [link_keg, link_opt, h1, ho]
    · intro n hn
      simp [setEntry, hn]
  | realFile =>
    refine ⟨setEntry s.opt name (.symlink kegCanon), ?_, ?_⟩
    · simp [link_keg, link_opt, h1, ho]
    · intro n hn
      simp [setEntry, hn]
  | realDir => exact absurd ho h2
  | symlink c =>
    by_cases hc : canonEq c kegCanon = true
    · refine ⟨s.opt, ?_, fun n _ => rfl⟩
      simp [link_keg, link_opt, h1, ho, hc]
    · simp only [Bool.not_eq_true] at hc
      refine ⟨setEntry s.opt name (.symlink kegCanon), ?_, ?_⟩
      · simp [link_keg, link_opt, h1, ho, hc]
      · intro n hn
        simp [setEntry, hn]

/-- Witness for claim C10 at a concrete input. -/
theorem C10_keg_without_bin_links_empty_witness :
    nameOfKeg ["c", "empty", "1"] = some "empty" ∧
    (∃ opt2,
      link_keg ["p", "bin"] ["c", "empty", "1"] (some ["c", "empty", "1"]) false []
          ⟨fun _ => .absent, fun _ => .absent⟩ =
        (⟨opt2, fun _ => .absent⟩, .ok []) ∧
      ∀ n, n ≠ "empty" → opt2 n = EntryState.absent) :=
  ⟨by decide,
    C10_keg_without_bin_links_empty ["p", "bin"] ["c", "empty", "1"]
      (some ["c", "empty", "1"]) [] ⟨fun _ => .absent, fun _ => .absent⟩ "empty"
      (by decide) (by decide)⟩

/-- Counterexample to claim C3: an opt symlink pointing at a different keg
is silently replaced, not reported as a conflict.  With `opt/foo` a
symlink resolving to `c/other/2`, `link_opt` for the keg `c/foo/1`
succeeds (`none` error) and afterwards `opt/foo` points at `c/foo/1`. -/
theorem C3_conflict_counterexample :
    (link_opt ["c", "foo", "1"] (some ["c", "foo", "1"])
        (fun n => if n = "foo" then EntryState.symlink (some ["c", "other", "2"])
          else .absent)).snd = none ∧
    (link_opt ["c", "foo", "1"] (some ["c", "foo", "1"])
        (fun n => if n = "foo" then EntryState.symlink (some ["c", "other", "2"])
          else .absent)).fst "foo" =
      EntryState.symlink (some ["c", "foo", "1"]) := by
  constructor
  · rfl
  · rfl

/-- Claim C3 as amended: `link_keg` creates `prefix/opt/<name>` pointing at
`keg_path`; an existing entry is kept only when it already resolves to this
keg; a symlink resolving to a different target, a dangling symlink, or a
regular file is removed and replaced by the new symlink — the call
succeeds and no conflict is reported. -/
theorem C3_link_opt_replaces_different_target (kegPath : List String)
    (kegCanon : Option (List String)) (opt : String → EntryState) (name : String)
    (h1 : nameOfKeg kegPath = some name) :
    ((∃ c, opt name = .symlink c ∧ canonEq c kegCanon = true) →
      link_opt kegPath kegCanon opt = (opt, none)) ∧
    (∀ c, opt name = .symlink c → canonEq c kegCanon = false →
      link_opt kegPath kegCanon opt = (setEntry opt name (.symlink kegCanon), none)) ∧
    (opt name = .absent ∨ opt name = .realFile →
      link_opt kegPath kegCanon opt = (setEntry opt name (.symlink kegCanon), none)) := by
  refine ⟨?_, ?_, ?_⟩
  · rintro ⟨c, hc, heq⟩
    simp [link_opt, h1, hc, heq]
  · intro c hc heq
    simp [link_opt, h1, hc, heq]
  · rintro (h | h) <;> simp [link_opt, h1, h]

/-- Witness for claim C3's amended theorem at a concrete input. -/
theorem C3_link_opt_replaces_different_target_witness :
    nameOfKeg ["c", "foo", "1"] = some "foo" ∧
    ((fun _ => EntryState.absent) "foo" = EntryState.absent ∨
      (fun _ => EntryState.absent) "foo" = EntryState.realFile) ∧
    link_opt ["c", "foo", "1"] (some ["c", "foo", "1"]) (fun _ => .absent) =
      (setEntry (fun _ => .absent) "foo" (.symlink (some ["c", "foo", "1"])), none) :=
  ⟨by decide, Or.inl (by decide),
    (C3_link_opt_replaces_different_target ["c", "foo", "1"] (some ["c", "foo", "1"])
      (fun _ => .absent) "foo" (by decide)).2.2 (Or.inl (by decide))⟩

/-- Counterexample to claim C4: `unlink_keg` only examines the basenames
present in the keg's bin directory, so a symlink under `prefix/bin` with a
different basename survives even though its canonical target lies within
`keg_path/bin`.  Here `bin/foo` (matching a keg entry) is removed but
`bin/alias`, which also resolves into the keg's bin, is left in place. -/
theorem C4_canonical_target_counterexample :
    (unlink_keg ["p", "bin"] ["c", "k", "1"] (some ["c", "k", "1"]) true
        [⟨"foo", some ["c", "k", "1", "bin", "foo"]⟩]
        ⟨fun _ => .absent,
          fun n => if n = "foo" then EntryState.symlink (some ["c", "k", "1", "bin", "foo"])
            else if n = "alias" then EntryState.symlink (some ["c", "k", "1", "bin", "foo"])
            else .absent⟩).fst.bin "foo" = EntryState.absent ∧
    (unlink_keg ["p", "bin"] ["c", "k", "1"] (some ["c", "k", "1"]) true
        [⟨"foo", some ["c", "k", "1", "bin", "foo"]⟩]
        ⟨fun _ => .absent,
          fun n => if n = "foo" then EntryState.symlink (some ["c", "k", "1", "bin", "foo"])
            else if n = "alias" then EntryState.symlink (some ["c", "k", "1", "bin", "foo"])
            else .absent⟩).fst.bin "alias" =
      EntryState.symlink (some ["c", "k", "1", "bin", "foo"]) ∧
    liesWithin (["c", "k", "1"] ++ ["bin"]) ["c", "k", "1", "bin", "foo"] = true := by
  refine ⟨?_, ?_, ?_⟩
  · rfl
  · rfl
  · decide

theorem unlinkRun_char (binDir : List String) (entries : List KegEntry)
    (bin : String → EntryState) (acc : List (List String)) (m : String) :
    (unlinkRun binDir entries bin acc).fst m =
      if entries.any (fun e => e.name == m && canonMatchB (bin m) e.canon) then
        .absent
      else bin m := by
  induction entries generalizing bin acc with
  | nil => simp [unlinkRun]
  | cons e rest ih =>
    by_cases he : canonMatchB (bin e.name) e.canon = true
    · by_cases hm : e.name = m
      · subst hm
        have habs : ∀ x : KegEntry, canonMatchB (EntryState.absent) x.canon = false := by
          intro x
          rfl
        simp only [unlinkRun, he, if_true, List.any_cons, ih, setEntry,
          if_pos rfl]
        have : (rest.any fun x =>
            x.name == e.name && canonMatchB (EntryState.absent) x.canon) = false := by
          simp [habs]
        simp [this, he]
      · have hset : setEntry bin e.name .absent m = bin m := by
          simp [setEntry, Ne.symm hm]
        simp only [unlinkRun, he, if_true, List.any_cons, ih, hset]
        have hne : (e.name == m) = false := by
          simp [hm]
        simp [hne]
    · simp only [Bool.not_eq_true] at he
      by_cases hm : e.name = m
      · subst hm
        simp only [unlinkRun, he, Bool.false_eq_true, if_false, List.any_cons, ih]
        simp [he]
      · have hne : (e.name == m) = false := by
          simp [hm]
        simp only [unlinkRun, he, Bool.false_eq_true, if_false, List.any_cons, ih]
        simp [hne]

/-- Claim C4 as amended: `unlink_keg` iterates the entries of
`keg_path/bin` and removes exactly the symlinks at `prefix/bin/<basename>`
(for those basenames) whose canonical target equals the canonical path of
the corresponding keg entry; a symlink under `prefix/bin` with a basename
not present in `keg_path/bin` is not removed even when its canonical
target lies inside `keg_path/bin`.  Entries resolving elsewhere, real
files, and directories are never touched, and the `prefix/opt/<name>`
symlink is removed exactly when it resolves to the keg. -/
theorem C4_unlink_keg_exact_removals (binDir kegPath : List String)
    (kegCanon : Option (List String)) (entries : List KegEntry) (s : LinkerState)
    (m n : String) :
    (unlink_keg binDir kegPath kegCanon true entries s).fst.bin m =
      (if entries.any (fun e => e.name == m && canonMatchB (s.bin m) e.canon) then
        .absent
      else s.bin m) ∧
    (unlink_keg binDir kegPath kegCanon true entries s).fst.opt n =
      (if (nameOfKeg kegPath).any (fun nm => nm == n) &&
          canonMatchB (s.opt n) kegCanon then
        .absent
      else s.opt n) := by
  constructor
  · simp only [unlink_keg, if_true]
    exact unlinkRun_char binDir entries s.bin [] m
  · simp only [unlink_keg, if_true]
    cases hk : nameOfKeg kegPath with
    | none => simp [unlink_opt, hk]
    | some nm =>
      by_cases hn : nm = n
      · subst hn
        by_cases hc : canonMatchB (s.opt nm) kegCanon = true
        · simp [unlink_opt, hk, hc, setEntry]
        · simp only [Bool.not_eq_true] at hc
          simp [unlink_opt, hk, hc]
      · by_cases hc : canonMatchB (s.opt nm) kegCanon = true
        · have hne : (nm == n) = false := by
            simp [hn]
          by_cases hc2 : canonMatchB (s.opt n) kegCanon = true
          · simp [unlink_opt, hk, hc, setEntry, Ne.symm hn, hne]
          · simp [unlink_opt, hk, hc, setEntry, Ne.symm hn, hne]
        · simp only [Bool.not_eq_true] at hc
          have hne : (nm == n) = false := by
            simp [hn]
          simp [unlink_opt, hk, hc, hne]

/-- Counterexample to claim C1: `link_keg` performs no rollback.  With keg
entries `a` then `b`, an empty slot at `bin/a` and a real file at `bin/b`,
the call fails with `LinkConflict` at `bin/b`, yet the symlink it created
at `bin/a` is still present afterwards — `prefix/bin` is not restored to
its state at the start of the call. -/
theorem C1_rollback_counterexample :
    (link_keg ["p", "bin"] ["c", "foo", "1"] (some ["c", "foo", "1"]) true
        [⟨"a", some ["c", "foo", "1", "bin", "a"]⟩,
          ⟨"b", some ["c", "foo", "1", "bin", "b"]⟩]
        ⟨fun _ => .absent,
          fun n => if n = "b" then EntryState.realFile else .absent⟩).snd =
      .error (.LinkConflict ["p", "bin", "b"]) ∧
    (link_keg ["p", "bin"] ["c", "foo", "1"] (some ["c", "foo", "1"]) true
        [⟨"a", some ["c", "foo", "1", "bin", "a"]⟩,
          ⟨"b", some ["c", "foo", "1", "bin", "b"]⟩]
        ⟨fun _ => .absent,
          fun n => if n = "b" then EntryState.realFile else .absent⟩).fst.bin "a" =
      EntryState.symlink (some ["c", "foo", "1", "bin", "a"]) ∧
    (fun n => if n = "b" then EntryState.realFile else EntryState.absent) "a" =
      EntryState.absent := by
  refine ⟨?_, ?_, ?_⟩
  · rfl
  · rfl
  · rfl

/-- Claim C1 as amended: when the `link_keg` loop hits a conflict it fails
with `LinkConflict` at that entry and stops, leaving in place every
symlink it created for the earlier entries of the same call: the final bin
directory is exactly the state reached by successfully processing the
entries before the conflicting one — nothing is rolled back. -/
theorem C1_link_keg_conflict_keeps_created_links (binDir kegBin : List String)
    (entries : List KegEntry) (bin : String → EntryState) (linked : List LinkedFile)
    (bin2 : String → EntryState) (err : Error)
    (h : linkRun binDir kegBin entries bin linked = (bin2, .error err)) :
    ∃ pre x rest linked2,
      entries = pre ++ x :: rest ∧
      linkRun binDir kegBin pre bin linked = (bin2, .ok linked2) ∧
      processEntry binDir kegBin x bin2 linked2 = .error err := by
  induction entries generalizing bin linked with
  | nil =>
    exact absurd (congrArg Prod.snd h) (by simp [linkRun])
  | cons e rest ih =>
    cases hp : processEntry binDir kegBin e bin linked with
    | ok st =>
      obtain ⟨binb, linkedb⟩ := st
      have hrun : linkRun binDir kegBin rest binb linkedb = (bin2, .error err) := by
        simpa [linkRun, hp] using h
      obtain ⟨pre, x, rest2, linked2, hsplit, hpre, hx⟩ := ih binb linkedb hrun
      refine ⟨e :: pre, x, rest2, linked2, by simp [hsplit], ?_, hx⟩
      simp [linkRun, hp, hpre]
    | error e2 =>
      have hpair : ((bin, Except.error e2) :
          (String → EntryState) × Except Error (List LinkedFile)) =
          (bin2, .error err) := by
        simpa [linkRun, hp] using h
      have hbin : bin = bin2 := congrArg Prod.fst hpair
      have herr : e2 = err := by
        have := congrArg Prod.snd hpair
        simpa using this
      refine ⟨[], e, rest, linked, rfl, ?_, ?_⟩
      · simp [linkRun, hbin]
      · rw [← hbin, ← herr]
        exact hp

/-- Witness for claim C1's amended theorem at a concrete input. -/
theorem C1_link_keg_conflict_keeps_created_links_witness :
    ∃ pre x rest linked2,
      ([⟨"a", some ["c", "foo", "1", "bin", "a"]⟩,
          ⟨"b", some ["c", "foo", "1", "bin", "b"]⟩] : List KegEntry) =
        pre ++ x :: rest ∧
      linkRun ["p", "bin"] ["c", "foo", "1", "bin"] pre
          (fun n => if n = "b" then EntryState.realFile else .absent) [] =
        (setEntry (fun n => if n = "b" then EntryState.realFile else .absent) "a"
          (.symlink (some ["c", "foo", "1", "bin", "a"])), .ok linked2) ∧
      processEntry ["p", "bin"] ["c", "foo", "1", "bin"] x
          (setEntry (fun n => if n = "b" then EntryState.realFile else .absent) "a"
            (.symlink (some ["c", "foo", "1", "bin", "a"]))) linked2 =
        .error (.LinkConflict ["p", "bin", "b"]) :=
  C1_link_keg_conflict_keeps_created_links ["p", "bin"] ["c", "foo", "1", "bin"]
    [⟨"a", some ["c", "foo", "1", "bin", "a"]⟩, ⟨"b", some ["c", "foo", "1", "bin", "b"]⟩]
    (fun n => if n = "b" then EntryState.realFile else .absent) []
    (setEntry (fun n => if n = "b" then EntryState.realFile else .absent) "a"
      (.symlink (some ["c", "foo", "1", "bin", "a"])))
    (.LinkConflict ["p", "bin", "b"]) rfl

/-! ### Installer orchestrator

`zb_io/src/install.rs`.  The database (`zb_io/src/db.rs`) is not among
the available sources; its operations are modelled from the spec (§4.7).
The resolver (`zb_core::resolve_closure`) is likewise not among the
available sources and is taken as a parameter of `plan`. -/

/-- A download request `{url, sha256}` submitted to the downloader. -/
structure DownloadRequest where
  url : String
  sha256 : String
deriving DecidableEq

/-- `InstallPlan` from `zb_io/src/install.rs` lines 23-26. -/
structure InstallPlan where
  formulas : List Formula
  bottles : List SelectedBottle

/-- Modelled from the spec: the metadata database state of §4.7
(`zb_io/src/db.rs` is not among the available sources).  `installed` rows
are `(name, version, store_key)`, `refs` is the `store_refs` refcount per
store key, and `linkedFiles` rows are `(name, version, link, target)`. -/
structure DbState where
  installed : List (String × String × String)
  refs : String → Nat
  linkedFiles : List (String × String × List String × List String)

/-- Modelled from the spec: `record_install(name, version, store_key)`
inserts into `installed` and increments `store_refs` (§4.7). -/
def record_install (name version key : String) (db : DbState) : DbState :=
  ⟨(name, version, key) :: db.installed,
    fun k => if k = key then db.refs k + 1 else db.refs k,
    db.linkedFiles⟩

/-- Modelled from the spec: `record_linked_file(name, version, link,
target)` inserts a linked-file row (§4.7). -/
def record_linked_file (name version : String) (link target : List String)
    (db : DbState) : DbState :=
  ⟨db.installed, db.refs, db.linkedFiles ++ [(name, version, link, target)]⟩

/-- The installer's world: store keys present, the cellar, the linker's
view of the prefix, and the database. -/
structure World where
  store : List String
  cellar : CellarState
  linker : LinkerState
  db : DbState

/-- The filesystem facts `execute` consumes: directory roots, the
unpacked content of each store key, and — for the linker — the canonical
path of a keg, whether its `bin` subdirectory exists, and that
directory's entries. -/
structure ExecCfg where
  storeDir : List String
  cellarDir : List String
  binDir : List String
  storeContent : String → FsNode
  kegCanon : List String → Option (List String)
  kegBinHasDir : List String → Bool
  kegEntries : List String → List KegEntry

/-- The body of the `execute` loop for one plan item
(`zb_io/src/install.rs` lines 115-153): ensure the store entry,
materialize the keg, link it if requested, then record the install and
the linked files in the database.  There is no already-installed check. -/
def executeItem (cfg : ExecCfg) (link : Bool) (f : Formula) (b : SelectedBottle)
    (w : World) : World × Option Error :=
  let key := b.sha256
  let store2 := if w.store.contains key then w.store else w.store ++ [key]
  let mres := materialize cfg.cellarDir f.name f.versions.stable
    (cfg.storeDir ++ [key]) (cfg.storeContent key) w.cellar
  let lres :=
    if link then
      link_keg cfg.binDir mres.fst (cfg.kegCanon mres.fst)
        (cfg.kegBinHasDir mres.fst) (cfg.kegEntries mres.fst) w.linker
    else
      (w.linker, .ok [])
  match lres.snd with
  | .error e => (⟨store2, mres.snd, lres.fst, w.db⟩, some e)
  | .ok linkedFiles =>
    (⟨store2, mres.snd, lres.fst,
      linkedFiles.foldl
        (fun d lf => record_linked_file f.name f.versions.stable
          lf.link_path lf.target_path d)
        (record_install f.name f.versions.stable key w.db)⟩, none)

/-- The sequential phase of `execute` over the zipped plan items, stopping
at the first error (`zb_io/src/install.rs` lines 114-155). -/
def executeLoop (cfg : ExecCfg) (link : Bool) :
    List (Formula × SelectedBottle) → World → World × Option Error
  | [], w => (w, none)
  | (f, b) :: rest, w =>
    match executeItem cfg link f b w with
    | (w2, some e) => (w2, some e)
    | (w2, none) => executeLoop cfg link rest w2

/-- The download requests `execute` submits for a plan
(`zb_io/src/install.rs` lines 103-110). -/
def downloadRequests (p : InstallPlan) : List DownloadRequest :=
  p.bottles.map (fun b => ⟨b.url, b.sha256⟩)

/-- `Installer::execute` from `zb_io/src/install.rs` lines 101-156:
download all bottles of the plan, then unpack, materialize, link and
record each item in order.  Returns the final world, the download
requests issued, and the first error if any. -/
def execute (cfg : ExecCfg) (p : InstallPlan) (link : Bool) (w : World) :
    World × List DownloadRequest × Option Error :=
  let r := executeLoop cfg link (p.formulas.zip p.bottles) w
  (r.fst, downloadRequests p, r.snd)

/-- Formula lookup in the fetched map (`formulas.get(n)` in `plan`). -/
def lookupFormula (fetched : List (String × Formula)) (n : String) : Option Formula :=
  (fetched.find? (fun p => p.fst == n)).map (fun p => p.snd)

/-- The bottle-selection loop of `plan` (`zb_io/src/install.rs` lines
63-67): select a bottle for each formula in order, stopping at the first
error. -/
def selectAll : List Formula → Except Error (List SelectedBottle)
  | [] => .ok []
  | f :: rest =>
    match select_bottle f with
    | .error e => .error e
    | .ok b =>
      match selectAll rest with
      | .error e => .error e
      | .ok bs => .ok (b :: bs)

/-- `Installer::plan` from `zb_io/src/install.rs` lines 49-73: fetch the
closure, resolve it into a topological order, then select bottles for the
ordered formulas.  The resolver (`zb_core::resolve_closure`, not among
the available sources) is a parameter; `ordered.filterMap` models the
`formulas.get(n).unwrap()` lookups. -/
def plan (resolver : List (String × Formula) → String → Except Error (List String))
    (fetched : List (String × Formula)) (name : String) : Except Error InstallPlan :=
  match resolver fetched name with
  | .error e => .error e
  | .ok ordered =>
    match selectAll (ordered.filterMap (lookupFormula fetched)) with
    | .error e => .error e
    | .ok bottles => .ok ⟨ordered.filterMap (lookupFormula fetched), bottles⟩

/-- `Installer::install` from `zb_io/src/install.rs` lines 159-162: plan,
then execute.  When `plan` fails, `execute` is never entered, so no
download request is issued and the world is unchanged. -/
def install (resolver : List (String × Formula) → String → Except Error (List String))
    (fetched : List (String × Formula)) (cfg : ExecCfg) (name : String) (link : Bool)
    (w : World) : World × List DownloadRequest × Option Error :=
  match plan resolver fetched name with
  | .error e => (w, [], some e)
  | .ok p => execute cfg p link w

theorem selectFromFiles_error_elim (name : String) (files : List (String × BottleFile))
    (e : Error) (h : selectFromFiles name files = .error e) :
    e = .UnsupportedBottle name ∧
    files.all (fun p => !(strStartsWith p.fst "arm64_")) = true := by
  induction files with
  | nil =>
    refine ⟨?_, rfl⟩
    have : Error.UnsupportedBottle name = e := by
      simpa [selectFromFiles] using h
    exact this.symm
  | cons hd tl ih =>
    obtain ⟨tag, file⟩ := hd
    by_cases ht : strStartsWith tag "arm64_" = true
    · exact absurd h (by simp [selectFromFiles, ht])
    · simp only [Bool.not_eq_true] at ht
      have h2 : selectFromFiles name tl = .error e := by
        simpa [selectFromFiles, ht] using h
      obtain ⟨he, hall⟩ := ih h2
      exact ⟨he, by simp [List.all_cons, ht, hall]⟩

theorem noArm_select_error (name : String) (files : List (String × BottleFile))
    (h : files.all (fun p => !(strStartsWith p.fst "arm64_")) = true) :
    selectFromFiles name files = .error (.UnsupportedBottle name) := by
  induction files with
  | nil => rfl
  | cons hd tl ih =>
    obtain ⟨tag, file⟩ := hd
    simp only [List.all_cons, Bool.and_eq_true, Bool.not_eq_true'] at h
    simp [selectFromFiles, h.1, ih h.2]

theorem selectAll_error_of_mem (fs : List Formula) (f : Formula) (hf : f ∈ fs)
    (hnoarm : f.bottle.stable.files.all (fun p => !(strStartsWith p.fst "arm64_")) = true) :
    ∃ g, g ∈ fs ∧
      g.bottle.stable.files.all (fun p => !(strStartsWith p.fst "arm64_")) = true ∧
      selectAll fs = .error (.UnsupportedBottle g.name) := by
  induction fs with
  | nil => cases hf
  | cons f0 rest ih =>
    cases hsel : select_bottle f0 with
    | error e =>
      obtain ⟨he, hall⟩ := selectFromFiles_error_elim f0.name f0.bottle.stable.files e hsel
      exact ⟨f0, List.mem_cons_self f0 rest, hall, by simp [selectAll, hsel, he]⟩
    | ok b =>
      have hfr : f ∈ rest := by
        rcases List.mem_cons.mp hf with hf0 | hfr
        · subst hf0
          have := noArm_select_error f.name f.bottle.stable.files hnoarm
          rw [select_bottle] at hsel
          rw [this] at hsel
          cases hsel
        · exact hfr
      obtain ⟨g, hg, hgall, hgsel⟩ := ih hfr
      exact ⟨g, List.mem_cons_of_mem f0 hg, hgall, by simp [selectAll, hsel, hgsel]⟩

/-- Claim C8: when the resolved closure contains a formula with no bottle
tag matching the platform, `install` fails with `UnsupportedBottle` during
`plan` — bottle selection runs after the topological sort — and `execute`
is never entered: no download request is issued and the world is
unchanged. -/
theorem C8_unsupported_bottle_before_download
    (resolver : List (String × Formula) → String → Except Error (List String))
    (fetched : List (String × Formula)) (cfg : ExecCfg) (name : String) (link : Bool)
    (w : World) (ordered : List String)
    (hres : resolver fetched name = .ok ordered) (f : Formula)
    (hf : f ∈ ordered.filterMap (lookupFormula fetched))
    (hnoarm : f.bottle.stable.files.all (fun p => !(strStartsWith p.fst "arm64_")) = true) :
    ∃ g, g ∈ ordered.filterMap (lookupFormula fetched) ∧
      g.bottle.stable.files.all (fun p => !(strStartsWith p.fst "arm64_")) = true ∧
      install resolver fetched cfg name link w =
        (w, [], some (.UnsupportedBottle g.name)) := by
  obtain ⟨g, hg, hgall, hgsel⟩ :=
    selectAll_error_of_mem (ordered.filterMap (lookupFormula fetched)) f hf hnoarm
  exact ⟨g, hg, hgall, by simp [install, plan, hres, hgsel]⟩

/-- Witness for claim C8 at a concrete input: a single formula `legacy`
offering only an `x86_64_sonoma` bottle. -/
theorem C8_unsupported_bottle_before_download_witness :
    ∃ g, g ∈ (["legacy"].filterMap (lookupFormula
        [("legacy", ⟨"legacy", ⟨"0.1.0"⟩, [],
          ⟨⟨[("x86_64_sonoma", ⟨"https://example.com/legacy.tar.gz", "c3"⟩)]⟩⟩⟩)])) ∧
      g.bottle.stable.files.all (fun p => !(strStartsWith p.fst "arm64_")) = true ∧
      install (fun _ n => .ok [n])
          [("legacy", ⟨"legacy", ⟨"0.1.0"⟩, [],
            ⟨⟨[("x86_64_sonoma", ⟨"https://example.com/legacy.tar.gz", "c3"⟩)]⟩⟩⟩)]
          ⟨["store"], ["cellar"], ["p", "bin"], fun _ => FsNode.file, fun _ => none,
            fun _ => false, fun _ => []⟩
          "legacy" true
          ⟨[], ⟨[]⟩, ⟨fun _ => .absent, fun _ => .absent⟩, ⟨[], fun _ => 0, []⟩⟩ =
        ⟨⟨[], ⟨[]⟩, ⟨fun _ => .absent, fun _ => .absent⟩, ⟨[], fun _ => 0, []⟩⟩, [],
          some (.UnsupportedBottle g.name)⟩ :=
  C8_unsupported_bottle_before_download (fun _ n => .ok [n])
    [("legacy", ⟨"legacy", ⟨"0.1.0"⟩, [],
      ⟨⟨[("x86_64_sonoma", ⟨"https://example.com/legacy.tar.gz", "c3"⟩)]⟩⟩⟩)]
    ⟨["store"], ["cellar"], ["p", "bin"], fun _ => FsNode.file, fun _ => none,
      fun _ => false, fun _ => []⟩
    "legacy" true
    ⟨[], ⟨[]⟩, ⟨fun _ => .absent, fun _ => .absent⟩, ⟨[], fun _ => 0, []⟩⟩
    ["legacy"] rfl
    ⟨"legacy", ⟨"0.1.0"⟩, [],
      ⟨⟨[("x86_64_sonoma", ⟨"https://example.com/legacy.tar.gz", "c3"⟩)]⟩⟩⟩
    (by decide) (by decide)

/-- Concrete one-formula plan data: the formula `pkg` 1.0.0 with one
arm64 bottle of digest `k`. -/
def formulaC2 : Formula :=
  ⟨"pkg", ⟨"1.0.0"⟩, [],
    ⟨⟨[("arm64_sonoma", ⟨"https://example.com/pkg.tar.gz", "k"⟩)]⟩⟩⟩

/-- The selected bottle of `formulaC2`. -/
def bottleC2 : SelectedBottle :=
  ⟨"arm64_sonoma", "https://example.com/pkg.tar.gz", "k"⟩

/-- Filesystem facts for the `formulaC2` install: the store entry wraps
content as `pkg/1.0.0/bin/pkg`, keg paths canonicalize to themselves, and
the keg's bin directory holds the single executable `pkg`. -/
def cfgC2 : ExecCfg :=
  ⟨["store"], ["cellar"], ["p", "bin"],
    fun _ => FsNode.dir
      [("pkg", .dir [("1.0.0", .dir [("bin", .dir [("pkg", .file)])])])],
    fun p => some p,
    fun _ => true,
    fun p => [⟨"pkg", some (p ++ ["bin", "pkg"])⟩]⟩

/-- A clean world: empty store, cellar, prefix and database. -/
def worldC2 : World :=
  ⟨[], ⟨[]⟩, ⟨fun _ => .absent, fun _ => .absent⟩, ⟨[], fun _ => 0, []⟩⟩

/-- The plan holding just `formulaC2`. -/
def planC2 : InstallPlan := ⟨[formulaC2], [bottleC2]⟩

/-- The world after the first `execute` of `planC2`. -/
def worldC2b : World := (execute cfgC2 planC2 true worldC2).fst

/-- Counterexample to claim C2: `execute` does not filter
already-installed items, so the second `execute` of the same plan is not
a no-op on the database: both runs succeed, but the second adds a second
`installed` row for `pkg` and increments the `k` store refcount from 1 to
2 (database operations modelled from the spec, §4.7). -/
theorem C2_idempotent_install_counterexample :
    (execute cfgC2 planC2 true worldC2).snd.snd = none ∧
    (execute cfgC2 planC2 true worldC2b).snd.snd = none ∧
    worldC2b.db.refs "k" = 1 ∧
    worldC2b.db.installed.length = 1 ∧
    (execute cfgC2 planC2 true worldC2b).fst.db.refs "k" = 2 ∧
    (execute cfgC2 planC2 true worldC2b).fst.db.installed.length = 2 :=
  ⟨rfl, rfl, rfl, rfl, rfl, rfl⟩

theorem foldl_record_linked_fields (name version : String) (lfs : List LinkedFile)
    (d : DbState) :
    (lfs.foldl
      (fun d2 lf => record_linked_file name version lf.link_path lf.target_path d2)
      d).installed = d.installed ∧
    (lfs.foldl
      (fun d2 lf => record_linked_file name version lf.link_path lf.target_path d2)
      d).refs = d.refs := by
  induction lfs generalizing d with
  | nil => exact ⟨rfl, rfl⟩
  | cons lf rest ih =>
    simpa [record_linked_file] using
      ih (record_linked_file name version lf.link_path lf.target_path d)

theorem executeItem_success_db (cfg : ExecCfg) (link : Bool) (f : Formula)
    (b : SelectedBottle) (w w2 : World)
    (h : executeItem cfg link f b w = (w2, none)) :
    w2.db.refs b.sha256 = w.db.refs b.sha256 + 1 ∧
    w2.db.installed = (f.name, f.versions.stable, b.sha256) :: w.db.installed := by
  simp only [executeItem] at h
  split at h
  · exact absurd (congrArg Prod.snd h) (by simp)
  · have hw : w2 = ⟨if w.store.contains b.sha256 then w.store else w.store ++ [b.sha256],
        (materialize cfg.cellarDir f.name f.versions.stable
          (cfg.storeDir ++ [b.sha256]) (cfg.storeContent b.sha256) w.cellar).snd,
        (if link then
          link_keg cfg.binDir (materialize cfg.cellarDir f.name f.versions.stable
              (cfg.storeDir ++ [b.sha256]) (cfg.storeContent b.sha256) w.cellar).fst
            (cfg.kegCanon (materialize cfg.cellarDir f.name f.versions.stable
              (cfg.storeDir ++ [b.sha256]) (cfg.storeContent b.sha256) w.cellar).fst)
            (cfg.kegBinHasDir (materialize cfg.cellarDir f.name f.versions.stable
              (cfg.storeDir ++ [b.sha256]) (cfg.storeContent b.sha256) w.cellar).fst)
            (cfg.kegEntries (materialize cfg.cellarDir f.name f.versions.stable
              (cfg.storeDir ++ [b.sha256]) (cfg.storeContent b.sha256) w.cellar).fst)
            w.linker
        else (w.linker, .ok [])).fst, _⟩ := (congrArg Prod.fst h).symm
    subst hw
    obtain ⟨hi, hr⟩ := foldl_record_linked_fields f.name f.versions.stable _
      (record_install f.name f.versions.stable b.sha256 w.db)
    refine ⟨?_, ?_⟩
    · rw [hr]
      simp [record_install]
    · rw [hi]
      simp [record_install]

/-- Claim C2 as amended: `execute` performs no already-installed filter.
Whenever `execute` of a one-item plan succeeds — in particular on a
repeated install of the same package — it calls `record_install` again:
the store refcount of the bottle's digest is incremented once more and a
fresh `installed` row is prepended (database operations modelled from the
spec, §4.7), and the download request for the bottle is issued again. -/
theorem C2_execute_does_not_filter (cfg : ExecCfg) (f : Formula) (b : SelectedBottle)
    (link : Bool) (w w2 : World) (reqs : List DownloadRequest)
    (h : execute cfg ⟨[f], [b]⟩ link w = (w2, reqs, none)) :
    w2.db.refs b.sha256 = w.db.refs b.sha256 + 1 ∧
    w2.db.installed = (f.name, f.versions.stable, b.sha256) :: w.db.installed ∧
    reqs = [⟨b.url, b.sha256⟩] := by
  have h1 : (executeLoop cfg link ([f].zip [b]) w).fst = w2 := congrArg Prod.fst h
  have h2 : downloadRequests ⟨[f], [b]⟩ = reqs := congrArg (fun t => t.snd.fst) h
  have h3 : (executeLoop cfg link ([f].zip [b]) w).snd = none :=
    congrArg (fun t => t.snd.snd) h
  cases hit : executeItem cfg link f b w with
  | mk w3 oe =>
    cases oe with
    | some e =>
      rw [show ([f].zip [b]) = [(f, b)] from rfl] at h3
      rw [executeLoop, hit] at h3
      exact absurd h3 (by simp)
    | none =>
      rw [show ([f].zip [b]) = [(f, b)] from rfl] at h1
      rw [executeLoop, hit] at h1
      have hw3 : (executeLoop cfg link [] w3).fst = w3 := rfl
      rw [hw3] at h1
      obtain ⟨ha, hb⟩ := executeItem_success_db cfg link f b w w2 (h1 ▸ hit)
      exact ⟨ha, hb, h2.symm⟩

/-- Witness for claim C2's amended theorem: the second `execute` of
`planC2` succeeds and increments the refcount of `k` from 1 to 2. -/
theorem C2_execute_does_not_filter_witness :
    worldC2b.db.refs "k" = 1 ∧
    ((execute cfgC2 planC2 true worldC2b).fst.db.refs "k" =
        worldC2b.db.refs "k" + 1 ∧
      (execute cfgC2 planC2 true worldC2b).fst.db.installed =
        ("pkg", "1.0.0", "k") :: worldC2b.db.installed ∧
      (execute cfgC2 planC2 true worldC2b).snd.fst =
        [⟨"https://example.com/pkg.tar.gz", "k"⟩]) :=
  ⟨rfl,
    C2_execute_does_not_filter cfgC2 formulaC2 bottleC2 true worldC2b
      (execute cfgC2 planC2 true worldC2b).fst
      (execute cfgC2 planC2 true worldC2b).snd.fst rfl⟩

end Zerobrew
